import Mathlib

/-
  Verification of the ingestion and reconciliation pipeline of the
  SAN_Dashboard_v3 backend (backend/app/utils/processing.py and
  backend/app/api/v1/data.py), as a shallow embedding in Lean 4.

  Modelling conventions:
  * Spreadsheet / database cell values are modelled by `Value`
    (Python `None`, `str`, numbers as exact rationals, `bool`).
    After `process_dataframe` every numeric column has been cleaned
    (`clean_numeric_value`) and `NaN` replaced by `None`, so the values
    flowing through the functions embedded here are rationals or `None`.
  * Records produced by `DataFrame.to_dict('records')` are association
    lists `List (String × Value)` with first-match lookup, mirroring
    Python dict access (`record.get(k)`, `k in record`, `record[k] = v`).
  * Python float arithmetic is modelled over `ℚ`; `round(x, 2)` is
    modelled as exact round-half-to-even on rationals, and `int(x)` as
    truncation towards zero.
-/

namespace SanDashboard

/-- A Python value as it appears in a processed spreadsheet record:
`None`, a string, a number (Python ints/floats modelled as exact
rationals), or a boolean. -/
inductive Value where
  | VNone : Value
  | VStr : String → Value
  | VNum : ℚ → Value
  | VBool : Bool → Value
deriving DecidableEq

/-- Models Python `str(v)`. The exact decimal rendering of Python floats
is not reproduced (`toString` on `ℚ` is used); the development only ever
relies on equality/injectivity of the rendering, stated explicitly as a
hypothesis where it matters. -/
def pyStr : Value → String
  | .VNone => "None"
  | .VStr s => s
  | .VNum q => toString q
  | .VBool b => if b then "True" else "False"

/-- Models `str(v) if v is not None else 'None'`, the rendering used by
the duplicate-check key tuples in `insert_data_with_duplicate_check` and
`aggregate_host_duplicates`. -/
def keyStr (v : Value) : String :=
  if v = .VNone then "None" else pyStr v

/-- Python truthiness of a value (`bool(v)`). -/
def pyTruthy : Value → Bool
  | .VNone => false
  | .VStr s => !s.isEmpty
  | .VNum q => q ≠ 0
  | .VBool b => b

/-- Models `float(v or 0)` as applied to the numeric capacity fields in
`aggregate_host_duplicates`. The capacity fields reaching aggregation are
numeric (or `None`/empty) after `clean_numeric_value`; Python's `float`
on a non-numeric string would raise instead — that error path is not
modelled (such a value is mapped to `0`). -/
def pyFloatOr0 : Value → ℚ
  | .VNum q => q
  | .VBool b => if b then 1 else 0
  | _ => 0

/-- A processed row, as produced by `DataFrame.to_dict('records')`:
an association list with the dict's insertion order. -/
abbrev Record := List (String × Value)

/-- First-match association-list lookup (Python dict access; dict keys
are unique, so first-match agrees with dict semantics). -/
def lookupKV {α : Type} : List (String × α) → String → Option α
  | [], _ => Option.none
  | (k, v) :: rest, key => if k = key then some v else lookupKV rest key

/-- Models `record.get(k)`: `None` when the key is missing. -/
def pyGet (r : Record) (k : String) : Value :=
  (lookupKV r k).getD .VNone

theorem lookupKV_append {α : Type} (a b : List (String × α)) (k : String) :
    lookupKV (a ++ b) k =
      (match lookupKV a k with
       | some v => some v
       | Option.none => lookupKV b k) := by
  induction a with
  | nil => simp [lookupKV]
  | cons p rest ih =>
      by_cases h : p.1 = k <;> simp [lookupKV, h, ih]

theorem lookupKV_none_filter (r : Record) (k : String)
    (h : lookupKV r k = Option.none) :
    r.filter (fun p => p.1 ≠ k) = r := by
  induction r with
  | nil => rfl
  | cons p rest ih =>
      by_cases hk : p.1 = k
      · simp [lookupKV, hk] at h
      · have h' : lookupKV rest k = Option.none := by
          simpa [lookupKV, hk] using h
        rw [List.filter_cons, if_pos (by simpa using hk), ih h']

/-! ### Numeric helpers (Python `int` and `round`) -/

/-- Floor of a rational as an integer. -/
def qfloor (q : ℚ) : ℤ := ⌊q⌋

/-- Models Python `int(x)`: truncation towards zero. -/
def pyInt (q : ℚ) : ℤ := if 0 ≤ q then qfloor q else -qfloor (-q)

/-- Models Python `round(x)` on exact values: round half to even. -/
def pyRound (q : ℚ) : ℤ :=
  let f := qfloor q
  let r := q - f
  if r < 1/2 then f
  else if 1/2 < r then f + 1
  else if f % 2 = 0 then f else f + 1

/-- Models Python `round(x, 2)`. -/
def round2 (q : ℚ) : ℚ := (pyRound (q * 100) : ℚ) / 100

theorem pyRound_low (q : ℚ) (n : ℤ) (h1 : (n : ℚ) ≤ q) (h2 : q - n < 1/2) :
    pyRound q = n := by
  have hf : qfloor q = n := by
    rw [qfloor]
    exact Int.floor_eq_iff.mpr ⟨h1, by linarith⟩
  simp only [pyRound, hf]
  rw [if_pos h2]

/-! ### `calculate_utilization_pct`, `get_alert_level`,
`calculate_days_until_full` (processing.py) -/

/-- Embeds `calculate_utilization_pct(used, total)`.  The float
arguments are modelled as `Option ℚ`, with `Option.none` standing for
the values `pd.isna` recognises (`None`/`NaN`). -/
def calculate_utilization_pct (used total : Option ℚ) : ℚ :=
  match used, total with
  | some u, some t => if t = 0 then 0 else round2 (u / t * 100)
  | _, _ => 0

/-- Embeds `get_alert_level(utilization_pct)`. -/
def get_alert_level (u : ℚ) : Option String :=
  if 100 ≤ u then some "emergency"
  else if 98 ≤ u then some "critical"
  else if 90 ≤ u then some "warning"
  else Option.none

/-- Embeds `calculate_days_until_full(current_pct, growth_rate_gib,
total_capacity_gib)`.  `current_pct` is `Option ℚ` (`Option.none` for
`pd.isna`); the two optional arguments model the Python `None` defaults. -/
def calculate_days_until_full (currentPct growthRateGib totalCapacityGib : Option ℚ) : ℤ :=
  match currentPct with
  | Option.none => 0
  | some u =>
    if 100 ≤ u then 0
    else
      let daily₀ : ℚ := if 95 < u then 2 else if 80 < u then 3/2 else 1
      let daily : ℚ :=
        match growthRateGib, totalCapacityGib with
        | some g, some t =>
            if 0 < t then
              let actual := g / t * 100
              if 0 < actual then max actual (1/10) else daily₀
            else daily₀
        | _, _ => daily₀
      max 0 (pyInt ((100 - u) / daily))

/-- The 3-tier baseline daily-growth table, as the spec words it. -/
def c7_baseline (u : ℚ) : ℚ := if 95 < u then 2 else if 80 < u then 3/2 else 1

/-- The daily growth rate as worded by claim C7: whenever an actual
growth figure and a positive total capacity are available, the actual
daily percentage floored at 0.1 replaces the baseline — with no
requirement that the actual percentage be positive. -/
def c7_claimed_rate (u : ℚ) : Option ℚ → Option ℚ → ℚ
  | some g, some t => if 0 < t then max (g / t * 100) (1/10) else c7_baseline u
  | _, _ => c7_baseline u

/-- The days-until-full computation as worded by the specification and
claim C7.  Used only to exhibit the divergence from the source. -/
def c7_claimed_days (u : ℚ) (growthRateGib totalCapacityGib : Option ℚ) : ℤ :=
  max 0 (pyInt ((100 - u) / c7_claimed_rate u growthRateGib totalCapacityGib))

/-! ### `calculate_pool_utilization` (processing.py) -/

/-- A `Storage_Pools` row after `process_dataframe`, restricted to the
columns `calculate_pool_utilization` touches.  The function only runs
when the `usable_capacity_gib` and `available_capacity_gib` columns are
present, which the structure represents; their cleaned values are
rationals or `None`.  `used_capacity_gib` and `utilization_pct` hold
whatever raw values the sheet carried (they are overwritten). -/
structure PoolRow where
  usable_capacity_gib : Option ℚ
  available_capacity_gib : Option ℚ
  used_capacity_gib : Value
  utilization_pct : Value
deriving DecidableEq

/-- Embeds `calculate_pool_utilization(df)` row by row:
`used_capacity_gib = (usable or 0) - (available or 0)` (the raw used
value is ignored) and `utilization_pct =
calculate_utilization_pct(used, usable)`. -/
def calculate_pool_utilization (rows : List PoolRow) : List PoolRow :=
  rows.map fun r =>
    let used : ℚ := r.usable_capacity_gib.getD 0 - r.available_capacity_gib.getD 0
    { r with
      used_capacity_gib := .VNum used,
      utilization_pct := .VNum (calculate_utilization_pct (some used) r.usable_capacity_gib) }

/-! ### `calculate_flashsystem_available_capacity` and the volume
derived-field pass (processing.py / data.py) -/

/-- The fixed FlashSystem name set from
`calculate_flashsystem_available_capacity`. -/
def FLASHSYSTEM_NAMES : List String := ["A9K-A1", "A9KR-R1", "A9KR-R2"]

/-- A `Capacity_Volumes` row after `process_dataframe`, restricted to
the columns the volume derived-field pass touches (the function returns
the frame unchanged when the guard columns are missing; the structure
represents the case where they are present). -/
structure VolumeRow where
  storage_system_name : Value
  provisioned_capacity_gib : Option ℚ
  used_capacity_gib : Option ℚ
  available_capacity_gib : Option ℚ
  overhead_used_capacity : Option ℚ
deriving DecidableEq

/-- The `df['storage_system_name'].isin(FLASHSYSTEM_NAMES)` mask for one
row: equality against the fixed names (a non-string value matches none). -/
def isFlashSystemRow (r : VolumeRow) : Bool :=
  match r.storage_system_name with
  | .VStr s => FLASHSYSTEM_NAMES.contains s
  | _ => false

/-- The masked assignment of `calculate_flashsystem_available_capacity`
on one row: rows of the FlashSystem set whose `available_capacity_gib`
is blank (`isna`) get `(provisioned or 0) - (used or 0)`; all other rows
are untouched. -/
def flashFillStep (r : VolumeRow) : VolumeRow :=
  if isFlashSystemRow r ∧ r.available_capacity_gib = Option.none then
    { r with
      available_capacity_gib :=
        some (r.provisioned_capacity_gib.getD 0 - r.used_capacity_gib.getD 0) }
  else r

/-- Embeds `calculate_flashsystem_available_capacity(df)`. -/
def calculate_flashsystem_available_capacity (rows : List VolumeRow) : List VolumeRow :=
  rows.map flashFillStep

/-- Modelled from the spec: `calculate_overhead_used_capacity` is
imported and called by `upload_excel` (data.py) for the
`Capacity_Volumes` sheet, and `capacity_volumes` declares an
`overhead_used_capacity` column (models.py), but the function itself is
absent from the source tree.  Per the spec, for every row whose system
is not in the FlashSystem set, `overhead_used_capacity =
provisioned - used - available` is computed; FlashSystem rows are left
alone (the two derivations are mutually exclusive per row). -/
def overheadStep (r : VolumeRow) : VolumeRow :=
  if isFlashSystemRow r then r
  else
    { r with
      overhead_used_capacity :=
        some (r.provisioned_capacity_gib.getD 0 - r.used_capacity_gib.getD 0
              - r.available_capacity_gib.getD 0) }

/-- The row-wise lift of `overheadStep` (see its doc comment above for
the spec-modelling note). -/
def calculate_overhead_used_capacity (rows : List VolumeRow) : List VolumeRow :=
  rows.map overheadStep

/-- The per-row volume derived-field pass as worded by the amended claim
C2: FlashSystem rows have a blank `available_capacity_gib` filled with
`provisioned - used` (a non-blank source value is kept); every other row
gets `overhead_used_capacity = provisioned - used - available`; the two
derivations are mutually exclusive per row. -/
def c2_spec_step (r : VolumeRow) : VolumeRow :=
  if isFlashSystemRow r then
    if r.available_capacity_gib = Option.none then
      { r with
        available_capacity_gib :=
          some (r.provisioned_capacity_gib.getD 0 - r.used_capacity_gib.getD 0) }
    else r
  else
    { r with
      overhead_used_capacity :=
        some (r.provisioned_capacity_gib.getD 0 - r.used_capacity_gib.getD 0
              - r.available_capacity_gib.getD 0) }

/-! ### `normalize_storage_system_name` (processing.py)

Names are modelled as character lists so that `str.strip()` and
`str.replace('_', '-')` can be embedded directly. -/

/-- A Python string, as a list of characters. -/
abbrev PyS := List Char

/-- ASCII whitespace as recognised by `str.strip()` (Python also strips
some further Unicode whitespace, which does not occur in system names). -/
def pyIsSpace (c : Char) : Bool :=
  c = ' ' ∨ c = '\t' ∨ c = '\n' ∨ c = '\r' ∨ c = '\x0B' ∨ c = '\x0C'

/-- Models `str.strip()`: drop leading whitespace, then trailing
whitespace (via a reversal). -/
def pyStrip (l : PyS) : PyS :=
  ((l.dropWhile pyIsSpace).reverse.dropWhile pyIsSpace).reverse

/-- The character map of `str.replace('_', '-')`. -/
def underToHyphen (c : Char) : Char := if c = '_' then '-' else c

/-- Models `name.replace('_', '-')`. -/
def replaceUnderscores (l : PyS) : PyS := l.map underToHyphen

/-- The `specific_mappings` table of
`normalize_storage_system_name`, in source order. -/
def specificMappings : List (PyS × PyS) :=
  [("FS9500_10.48.1.79".toList, "FS95K-R1".toList),
   ("Cluster_9.3.118.191".toList, "FS92K-A1".toList),
   ("FS92K_A1_9.3.118.191".toList, "FS92K-A1".toList),
   ("megasan18".toList, "MSAN18".toList)]

/-- First-match lookup in the mappings table (Python dict membership is
case-sensitive exact match). -/
def lookupMapping : List (PyS × PyS) → PyS → Option PyS
  | [], _ => Option.none
  | (k, v) :: rest, key => if k = key then some v else lookupMapping rest key

/-- Embeds `normalize_storage_system_name(name)` for a string argument:
strip, then the exact-match table, then underscore-to-hyphen
replacement.  (`None`/`NaN` arguments are returned unchanged by the
source; see `normalizeNameOpt`.) -/
def normalize_storage_system_name (l : PyS) : PyS :=
  let s := pyStrip l
  match lookupMapping specificMappings s with
  | some v => v
  | Option.none => replaceUnderscores s

/-- The source's `None`/`NaN` passthrough: a missing name is returned
as-is, a string is normalized. -/
def normalizeNameOpt : Option PyS → Option PyS
  | Option.none => Option.none
  | some s => some (normalize_storage_system_name s)

theorem dropWhile_pyIsSpace_idem (l : PyS) :
    (l.dropWhile pyIsSpace).dropWhile pyIsSpace = l.dropWhile pyIsSpace := by
  induction l with
  | nil => rfl
  | cons a t ih =>
      by_cases h : pyIsSpace a = true
      · simpa [List.dropWhile_cons, h] using ih
      · simp [List.dropWhile_cons, h]

theorem dropWhile_head_not (l : PyS) (a : Char) (t : PyS)
    (h : l.dropWhile pyIsSpace = a :: t) : pyIsSpace a = false := by
  induction l with
  | nil => simp [List.dropWhile] at h
  | cons b s ih =>
      by_cases hb : pyIsSpace b = true
      · exact ih (by simpa [List.dropWhile_cons, hb] using h)
      · rw [List.dropWhile_cons, if_neg (by simp [hb])] at h
        cases h
        simp at hb
        exact hb

theorem dropWhile_eq_self_of_head (l : PyS)
    (h : ∀ a t, l = a :: t → pyIsSpace a = false) :
    l.dropWhile pyIsSpace = l := by
  cases l with
  | nil => rfl
  | cons a t => rw [List.dropWhile_cons, if_neg (by simp [h a t rfl])]

theorem dropWhile_getLast? (w : PyS)
    (h : w.dropWhile pyIsSpace ≠ []) :
    (w.dropWhile pyIsSpace).getLast? = w.getLast? := by
  induction w with
  | nil => rfl
  | cons a t ih =>
      by_cases ha : pyIsSpace a = true
      · rw [List.dropWhile_cons, if_pos (by simp [ha])] at h ⊢
        cases t with
        | nil => simp [List.dropWhile] at h
        | cons b s => rw [ih h, List.getLast?_cons_cons]
      · rw [List.dropWhile_cons, if_neg (by simp [ha])]

theorem pyStrip_idem (l : PyS) : pyStrip (pyStrip l) = pyStrip l := by
  set u := l.dropWhile pyIsSpace with hu
  set y := u.reverse.dropWhile pyIsSpace with hy
  have hStrip : pyStrip l = y.reverse := rfl
  -- the front of `pyStrip l` is clean: its head is the head of `u`
  have hfront : y.reverse.dropWhile pyIsSpace = y.reverse := by
    apply dropWhile_eq_self_of_head
    intro a t hat
    have hyne : y ≠ [] := by
      intro h0
      rw [h0] at hat
      simp at hat
    have h1 : y.reverse.head? = some a := by rw [hat]; rfl
    have h2 : y.reverse.head? = y.getLast? := List.head?_reverse y
    have h3 : y.getLast? = u.reverse.getLast? := dropWhile_getLast? u.reverse (hy ▸ hyne)
    have h4 : u.reverse.getLast? = u.head? := by
      rw [← List.head?_reverse u.reverse, List.reverse_reverse]
    have h5 : u.head? = some a := by rw [← h4, ← h3, ← h2, h1]
    cases hu' : u with
    | nil => rw [hu'] at h5; simp at h5
    | cons b s =>
        rw [hu'] at h5
        have hb : b = a := by simpa using h5
        exact hb ▸ dropWhile_head_not l b s (hu ▸ hu')
  -- the back of `pyStrip l` is clean as well
  have hback : y.reverse.reverse.dropWhile pyIsSpace = y.reverse.reverse := by
    rw [List.reverse_reverse, hy]
    exact dropWhile_pyIsSpace_idem u.reverse
  calc pyStrip (pyStrip l)
      = ((y.reverse.dropWhile pyIsSpace).reverse.dropWhile pyIsSpace).reverse := rfl
    _ = (y.reverse.reverse.dropWhile pyIsSpace).reverse := by rw [hfront]
    _ = y.reverse.reverse.reverse := by rw [hback]
    _ = pyStrip l := by rw [List.reverse_reverse, hStrip]

theorem pyIsSpace_underToHyphen (c : Char) :
    pyIsSpace (underToHyphen c) = pyIsSpace c := by
  by_cases h : c = '_' <;> simp [underToHyphen, h, pyIsSpace]

theorem dropWhile_map_underToHyphen (l : PyS) :
    (l.map underToHyphen).dropWhile pyIsSpace
      = (l.dropWhile pyIsSpace).map underToHyphen := by
  induction l with
  | nil => rfl
  | cons a t ih =>
      by_cases h : pyIsSpace a = true
      · simp [List.dropWhile_cons, h, pyIsSpace_underToHyphen, ih]
      · simp [List.dropWhile_cons, h, pyIsSpace_underToHyphen]

theorem pyStrip_map_underToHyphen (l : PyS) :
    pyStrip (l.map underToHyphen) = (pyStrip l).map underToHyphen := by
  unfold pyStrip
  rw [dropWhile_map_underToHyphen, ← List.map_reverse,
    dropWhile_map_underToHyphen, ← List.map_reverse]

theorem underToHyphen_idem (c : Char) :
    underToHyphen (underToHyphen c) = underToHyphen c := by
  by_cases h : c = '_' <;> simp [underToHyphen, h]

theorem replaceUnderscores_idem (l : PyS) :
    replaceUnderscores (replaceUnderscores l) = replaceUnderscores l := by
  unfold replaceUnderscores
  rw [List.map_map]
  exact List.map_congr_left fun c _ => underToHyphen_idem c

theorem replaceUnderscores_no_underscore (l : PyS) (c : Char)
    (h : c ∈ replaceUnderscores l) : c ≠ '_' := by
  unfold replaceUnderscores at h
  rcases List.mem_map.mp h with ⟨d, _, hd⟩
  by_cases hdu : d = '_'
  · subst hd; simp [underToHyphen, hdu]
  · subst hd; simp [underToHyphen, hdu]

theorem replaceUnderscores_eq_of_no_hyphen (t : PyS)
    (ht : ∀ c ∈ t, c ≠ '-') :
    ∀ l : PyS, replaceUnderscores l = t → l = t := by
  induction t with
  | nil =>
      intro l h
      cases l with
      | nil => rfl
      | cons a s => simp [replaceUnderscores] at h
  | cons b u ih =>
      intro l h
      cases l with
      | nil => simp [replaceUnderscores] at h
      | cons a s =>
          simp only [replaceUnderscores, List.map_cons, List.cons.injEq] at h
          obtain ⟨h1, h2⟩ := h
          have hb : b ≠ '-' := ht b (List.mem_cons_self b u)
          have ha : a = b := by
            by_cases hau : a = '_'
            · exfalso; apply hb; rw [← h1]; simp [underToHyphen, hau]
            · rw [← h1]; simp [underToHyphen, hau]
          have : s = u := ih (fun c hc => ht c (List.mem_cons_of_mem b hc)) s h2
          rw [ha, this]

theorem lookupMapping_specific_cases (s v : PyS)
    (h : lookupMapping specificMappings s = some v) :
    v = "FS95K-R1".toList ∨ v = "FS92K-A1".toList ∨ v = "MSAN18".toList := by
  simp only [specificMappings, lookupMapping] at h
  split at h
  · exact Or.inl (by injection h with h; exact h.symm)
  · split at h
    · exact Or.inr (Or.inl (by injection h with h; exact h.symm))
    · split at h
      · exact Or.inr (Or.inl (by injection h with h; exact h.symm))
      · split at h
        · exact Or.inr (Or.inr (by injection h with h; exact h.symm))
        · simp at h

theorem lookupMapping_replaced_none (s : PyS)
    (hs : lookupMapping specificMappings s = Option.none) :
    lookupMapping specificMappings (replaceUnderscores s) = Option.none := by
  have hno : ∀ c ∈ replaceUnderscores s, c ≠ '_' :=
    replaceUnderscores_no_underscore s
  have k1 : "FS9500_10.48.1.79".toList ≠ replaceUnderscores s := by
    intro h
    exact hno '_' (h.symm ▸ (by decide : '_' ∈ "FS9500_10.48.1.79".toList)) rfl
  have k2 : "Cluster_9.3.118.191".toList ≠ replaceUnderscores s := by
    intro h
    exact hno '_' (h.symm ▸ (by decide : '_' ∈ "Cluster_9.3.118.191".toList)) rfl
  have k3 : "FS92K_A1_9.3.118.191".toList ≠ replaceUnderscores s := by
    intro h
    exact hno '_' (h.symm ▸ (by decide : '_' ∈ "FS92K_A1_9.3.118.191".toList)) rfl
  have k4 : "megasan18".toList ≠ replaceUnderscores s := by
    intro h
    have hs' : s = "megasan18".toList :=
      replaceUnderscores_eq_of_no_hyphen _ (by decide) s h.symm
    rw [hs'] at hs
    simp [specificMappings, lookupMapping] at hs
  simp only [specificMappings, lookupMapping]
  rw [if_neg k1, if_neg k2, if_neg k3, if_neg k4]

theorem normalize_name_idem (l : PyS) :
    normalize_storage_system_name (normalize_storage_system_name l)
      = normalize_storage_system_name l := by
  have hdef : ∀ m : PyS, normalize_storage_system_name m =
      (match lookupMapping specificMappings (pyStrip m) with
       | some v => v
       | Option.none => replaceUnderscores (pyStrip m)) := fun _ => rfl
  cases hmap : lookupMapping specificMappings (pyStrip l) with
  | some v =>
      have h1 : normalize_storage_system_name l = v := by
        simp only [hdef, hmap]
      rw [h1]
      rcases lookupMapping_specific_cases _ _ hmap with h | h | h <;>
        · subst h; decide
  | none =>
      have h1 : normalize_storage_system_name l = replaceUnderscores (pyStrip l) := by
        simp only [hdef, hmap]
      have hstrip : pyStrip (replaceUnderscores (pyStrip l))
          = replaceUnderscores (pyStrip l) := by
        have hr : replaceUnderscores (pyStrip l) = (pyStrip l).map underToHyphen := rfl
        rw [hr, pyStrip_map_underToHyphen, pyStrip_idem]
      rw [h1, hdef, hstrip, lookupMapping_replaced_none _ hmap]
      exact replaceUnderscores_idem (pyStrip l)

/-! ### `aggregate_host_duplicates` (processing.py) -/

/-- A skipped/aggregated-record audit entry as built by
`insert_data_with_duplicate_check` and `aggregate_host_duplicates`.
`identifier` holds the string rendering of the stored identifier; the
`original_count` field exists only on aggregation entries and is
`Option.none` otherwise. -/
structure SkipEntry where
  table : String
  reason : String
  identifier : String
  full_row : Record
  original_count : Option Nat
deriving DecidableEq

/-- The `sum_fields` list of `aggregate_host_duplicates`. -/
def sum_fields : List String :=
  ["san_capacity_gib", "used_san_capacity_gib",
   "primary_provisioned_capacity_gib", "primary_used_capacity_gib"]

/-- The grouping key of `aggregate_host_duplicates`: for every unique
key column (present or not), the pair of the column name and
`str(record.get(k))` (with `'None'` for an absent value).  The source
canonicalises the column order with `sorted(unique_keys)`; since the
same fixed column list is used for every record of a run, keeping the
given order yields the same equalities, so the sort is omitted here. -/
def aggKeyOf (keys : List String) (r : Record) : List (String × String) :=
  keys.map fun k => (k, keyStr (pyGet r k))

/-- First-occurrence-order deduplication, modelling the insertion order
of Python's `defaultdict` keys. -/
def dedupKeys {α : Type} [DecidableEq α] (seen : List α) : List α → List α
  | [] => []
  | x :: xs => if x ∈ seen then dedupKeys seen xs else x :: dedupKeys (x :: seen) xs

/-- The groups built by `aggregate_host_duplicates`, in first-occurrence
order, each group in row order. -/
def hostGroups (keys : List String) (records : List Record) : List (List Record) :=
  (dedupKeys [] (records.map (aggKeyOf keys))).map
    (fun kt => records.filter (fun r => aggKeyOf keys r = kt))

/-- Replaces the value of an existing key (`base_record[field] = v` on a
dict whose key set already contains `field`). -/
def setField (r : Record) (k : String) (v : Value) : Record :=
  r.map fun p => if p.1 = k then (p.1, v) else p

/-- The summed value of one capacity field over a duplicate group:
`sum(float(rec.get(f) or 0) for rec in g if rec.get(f) is not None)`,
stored as `None` when the total is not positive. -/
def sumValOf (g : List Record) (f : String) : Value :=
  let total : ℚ :=
    ((g.filter (fun r => pyGet r f ≠ .VNone)).map (fun r => pyFloatOr0 (pyGet r f))).sum
  if 0 < total then .VNum total else .VNone

/-- One step of the summing loop (`if field in base_record: ...`):
overwrite the field with the group total when the accumulating record
carries it. -/
def hostFoldStep (g : List Record) (acc : Record) (f : String) : Record :=
  if (lookupKV acc f).isSome then setField acc f (sumValOf g f) else acc

/-- Collapses a duplicate group: start from a copy of the first member
and overwrite each `sum_fields` column that the record carries with the
group total. -/
def combineHost (g : List Record) : Record :=
  match g with
  | [] => []
  | base :: _ => sum_fields.foldl (hostFoldStep g) base

/-- The audit entry recorded for one collapsed group. -/
def mkAggInfo (g : List Record) : SkipEntry :=
  { table := "capacity_hosts",
    reason := "aggregated_" ++ toString g.length ++ "_duplicates",
    identifier :=
      (match lookupKV (g.headD []) "name" with
       | some v => pyStr v
       | Option.none => "Unknown"),
    full_row := combineHost g,
    original_count := some g.length }

/-- Embeds `aggregate_host_duplicates(records, unique_keys)`: singleton
groups pass through unchanged, larger groups collapse to their combined
record, and each collapse is recorded as an audit entry, all in group
(first-occurrence) order. -/
def aggregate_host_duplicates (records : List Record) (keys : List String) :
    List Record × List SkipEntry :=
  let gs := hostGroups keys records
  (gs.map (fun g => if g.length = 1 then g.headD [] else combineHost g),
   (gs.filter (fun g => 2 ≤ g.length)).map mkAggInfo)

/-! ### `insert_data_with_duplicate_check` (processing.py) -/

/-- The duplicate-check filter of one candidate record:
`{key: record.get(key) for key in unique_keys if key in record}`. -/
def filtersOf (keys : List String) (r : Record) : List (String × Value) :=
  keys.filterMap fun k =>
    match lookupKV r k with
    | some v => some (k, v)
    | Option.none => Option.none

/-- The within-file duplicate key:
`tuple((k, str(v) if v is not None else 'None') for k, v in
sorted(filters.items()))`.  As with `aggKeyOf`, the sort only
canonicalises an order that is already fixed by the unique-key list, so
it is omitted. -/
def keyTupleOf (filters : List (String × Value)) : List (String × String) :=
  filters.map fun p => (p.1, keyStr p.2)

/-- Models `db.query(model).filter_by(**filters).first()` matching one
stored row: every filter column equals the stored value (an absent
column is `None`, matching a `None` filter as SQL `IS NULL` does). -/
def matchesFilters (filters : List (String × Value)) (rec : Record) : Bool :=
  filters.all fun p => pyGet rec p.1 = p.2

/-- `first()` over the table contents, in insertion order. -/
def findMatch (db : List Record) (filters : List (String × Value)) : Option Record :=
  match db with
  | [] => Option.none
  | rec :: rest => if matchesFilters filters rec then some rec else findMatch rest filters

/-- The readable identifier built for a record in the insert loop:
`record.get('name')`, falling back to
`"{storage_system_name}/{pool}"` when the name is falsy or the string
`'None'`.  The stored raw value is modelled by its string rendering. -/
def identifierOf (r : Record) : String :=
  let n := pyGet r "name"
  if ¬ pyTruthy n ∨ n = .VStr "None" then
    (match lookupKV r "storage_system_name" with
     | some v => pyStr v
     | Option.none => "Unknown") ++ "/" ++
    (match lookupKV r "pool" with
     | some v => pyStr v
     | Option.none => "Unknown")
  else pyStr n

/-- The evolving state of the insert loop: the table contents (the
session makes uncommitted inserts visible to later queries), the
counters, the audit entries and the `session_keys_seen` set. -/
structure InsertState where
  db : List Record
  rows_added : Nat
  duplicates_skipped : Nat
  skipped_records : List SkipEntry
  seen : List (List (String × String))
deriving DecidableEq

/-- The audit entry for a record skipped as a database duplicate. -/
def mkDbDupEntry (tbl : String) (r : Record) : SkipEntry :=
  ⟨tbl, "already_exists_in_db", identifierOf r, r, Option.none⟩

/-- One iteration of the insert loop of
`insert_data_with_duplicate_check`: within-file duplicate check against
`session_keys_seen`, then the database duplicate check, then the insert.
(The per-record `insert_error` handler is for constructor failures,
which cannot occur in this model of `model_class(**record)`.) -/
def insertStep (tbl : String) (keys : List String) (st : InsertState) (r : Record) :
    InsertState :=
  let filters := filtersOf keys r
  let kt := keyTupleOf filters
  if kt ∈ st.seen then
    { st with
      duplicates_skipped := st.duplicates_skipped + 1,
      skipped_records :=
        st.skipped_records ++ [⟨tbl, "within_file_duplicate", identifierOf r, r, Option.none⟩] }
  else
    match findMatch st.db filters with
    | some _ =>
        { st with
          duplicates_skipped := st.duplicates_skipped + 1,
          skipped_records := st.skipped_records ++ [mkDbDupEntry tbl r] }
    | Option.none =>
        { st with
          db := st.db ++ [r],
          rows_added := st.rows_added + 1,
          seen := st.seen ++ [kt] }

/-- The insert loop over the candidate records, in row order. -/
def insertLoop (tbl : String) (keys : List String) : InsertState → List Record → InsertState
  | st, [] => st
  | st, r :: rs => insertLoop tbl keys (insertStep tbl keys st r) rs

/-- Embeds `insert_data_with_duplicate_check(db, model_class, records,
unique_keys)`: host tables are aggregated first (their aggregation
audit entries seed the skipped list — the source's emptiness guard
around `extend` is equivalent), then every candidate runs through the
duplicate-checking insert loop. -/
def insert_data_with_duplicate_check (tbl : String) (db : List Record)
    (records : List Record) (keys : List String) : InsertState :=
  let staged :=
    if tbl = "capacity_hosts" then aggregate_host_duplicates records keys
    else (records, [])
  insertLoop tbl keys ⟨db, 0, 0, staged.2, []⟩ staged.1

/-- The candidate records that actually enter the insert loop:
aggregated for host tables, the raw records otherwise. -/
def stagedRecords (tbl : String) (records : List Record) (keys : List String) : List Record :=
  if tbl = "capacity_hosts" then (aggregate_host_duplicates records keys).1 else records

/-- The aggregation audit entries that seed the skipped list. -/
def stagedInfo (tbl : String) (records : List Record) (keys : List String) : List SkipEntry :=
  if tbl = "capacity_hosts" then (aggregate_host_duplicates records keys).2 else []

theorem insert_data_eq_loop (tbl : String) (db records : List Record) (keys : List String) :
    insert_data_with_duplicate_check tbl db records keys
      = insertLoop tbl keys ⟨db, 0, 0, stagedInfo tbl records keys, []⟩
          (stagedRecords tbl records keys) := by
  by_cases h : tbl = "capacity_hosts" <;>
    simp [insert_data_with_duplicate_check, stagedRecords, stagedInfo, h]

/-- All unique-key values occurring in the filters of a candidate list. -/
def filterVals (keys : List String) (cs : List Record) : List Value :=
  (cs.map (fun c => (filtersOf keys c).map Prod.snd)).flatten

theorem mem_filterVals {keys : List String} {cs : List Record} {c : Record}
    (hc : c ∈ cs) {p : String × Value} (hp : p ∈ filtersOf keys c) :
    p.2 ∈ filterVals keys cs := by
  unfold filterVals
  rw [List.mem_flatten]
  exact ⟨(filtersOf keys c).map Prod.snd, List.mem_map_of_mem _ hc,
    List.mem_map_of_mem _ hp⟩

theorem mem_filtersOf {keys : List String} {r : Record} {p : String × Value}
    (hp : p ∈ filtersOf keys r) : lookupKV r p.1 = some p.2 := by
  unfold filtersOf at hp
  rcases List.mem_filterMap.mp hp with ⟨k, _, hmatch⟩
  cases hl : lookupKV r k with
  | none => rw [hl] at hmatch; simp at hmatch
  | some v =>
      rw [hl] at hmatch
      simp at hmatch
      rw [← hmatch, hl]

theorem matchesFilters_self (keys : List String) (r : Record) :
    matchesFilters (filtersOf keys r) r = true := by
  unfold matchesFilters
  rw [List.all_eq_true]
  intro p hp
  have h := mem_filtersOf hp
  simp [pyGet, h]

theorem keyTupleOf_inj {f g : List (String × Value)}
    (h : ∀ p ∈ f, ∀ q ∈ g, keyStr p.2 = keyStr q.2 → p.2 = q.2)
    (he : keyTupleOf f = keyTupleOf g) : f = g := by
  induction f generalizing g with
  | nil => cases g with
      | nil => rfl
      | cons q g' => simp [keyTupleOf] at he
  | cons p f' ih =>
      cases g with
      | nil => simp [keyTupleOf] at he
      | cons q g' =>
          simp only [keyTupleOf, List.map_cons, List.cons.injEq, Prod.mk.injEq] at he
          obtain ⟨⟨hk, hv⟩, htail⟩ := he
          have hpq : p.2 = q.2 :=
            h p (List.mem_cons_self p f') q (List.mem_cons_self q g') hv
          have hf : f' = g' :=
            ih (fun a ha b hb => h a (List.mem_cons_of_mem p ha) b (List.mem_cons_of_mem q hb))
              htail
          calc p :: f' = (p.1, p.2) :: f' := by rw [Prod.mk.eta]
    _ = (q.1, q.2) :: g' := by rw [hk, hpq, hf]
    _ = q :: g' := by rw [Prod.mk.eta]

theorem findMatch_some {db : List Record} {filters : List (String × Value)} {rec : Record}
    (h : findMatch db filters = some rec) :
    rec ∈ db ∧ matchesFilters filters rec = true := by
  induction db with
  | nil => simp [findMatch] at h
  | cons x rest ih =>
      by_cases hx : matchesFilters filters x = true
      · rw [findMatch, if_pos hx] at h
        injection h with h
        exact ⟨h ▸ List.mem_cons_self x rest, h ▸ hx⟩
      · rw [findMatch, if_neg hx] at h
        obtain ⟨h1, h2⟩ := ih h
        exact ⟨List.mem_cons_of_mem x h1, h2⟩

theorem findMatch_isSome {db : List Record} {filters : List (String × Value)} {rec : Record}
    (hrec : rec ∈ db) (hm : matchesFilters filters rec = true) :
    (findMatch db filters).isSome = true := by
  induction db with
  | nil => simp at hrec
  | cons x rest ih =>
      by_cases hx : matchesFilters filters x = true
      · rw [findMatch, if_pos hx]; rfl
      · rw [findMatch, if_neg hx]
        rcases List.mem_cons.mp hrec with h | h
        · exact absurd (h ▸ hm) hx
        · exact ih h

/-- A candidate is covered by the table contents: some stored row
matches its duplicate-check filters. -/
def CoveredP (db : List Record) (keys : List String) (c : Record) : Prop :=
  ∃ rec ∈ db, matchesFilters (filtersOf keys c) rec = true

/-- Invariant of the insert loop: every remembered key tuple belongs to
a stored row that is one of the run's candidates. -/
def SeenInv (keys : List String) (cs₀ : List Record) (st : InsertState) : Prop :=
  ∀ kt ∈ st.seen, ∃ rec, rec ∈ st.db ∧ rec ∈ cs₀ ∧ keyTupleOf (filtersOf keys rec) = kt

theorem insertStep_db_mono (tbl : String) (keys : List String) (st : InsertState) (r : Record) :
    ∀ x ∈ st.db, x ∈ (insertStep tbl keys st r).db := by
  intro x hx
  by_cases hin : keyTupleOf (filtersOf keys r) ∈ st.seen
  · simp [insertStep, hin, hx]
  · cases hf : findMatch st.db (filtersOf keys r) with
    | none => simp [insertStep, hin, hf]; exact Or.inl hx
    | some rec => simp [insertStep, hin, hf, hx]

theorem insertLoop_db_mono (tbl : String) (keys : List String) :
    ∀ (cs : List Record) (st : InsertState), ∀ x ∈ st.db, x ∈ (insertLoop tbl keys st cs).db := by
  intro cs
  induction cs with
  | nil => intro st x hx; exact hx
  | cons r rs ih =>
      intro st x hx
      exact ih (insertStep tbl keys st r) x (insertStep_db_mono tbl keys st r x hx)

theorem insertStep_inv (tbl : String) (keys : List String) (cs₀ : List Record)
    (st : InsertState) (r : Record) (hr : r ∈ cs₀) (h : SeenInv keys cs₀ st) :
    SeenInv keys cs₀ (insertStep tbl keys st r) := by
  intro kt hkt
  by_cases hin : keyTupleOf (filtersOf keys r) ∈ st.seen
  · simp only [insertStep, if_pos hin] at hkt ⊢
    obtain ⟨rec, h1, h2, h3⟩ := h kt hkt
    exact ⟨rec, h1, h2, h3⟩
  · cases hf : findMatch st.db (filtersOf keys r) with
    | some rec =>
        simp only [insertStep, if_neg hin, hf] at hkt ⊢
        obtain ⟨rec', h1, h2, h3⟩ := h kt hkt
        exact ⟨rec', h1, h2, h3⟩
    | none =>
        simp only [insertStep, if_neg hin, hf] at hkt ⊢
        rw [List.mem_append] at hkt
        rcases hkt with hkt | hkt
        · obtain ⟨rec', h1, h2, h3⟩ := h kt hkt
          exact ⟨rec', List.mem_append_left _ h1, h2, h3⟩
        · have hkt' : kt = keyTupleOf (filtersOf keys r) := by simpa using hkt
          exact ⟨r, List.mem_append_right _ (List.mem_singleton.mpr rfl), hr, hkt'.symm⟩

theorem insertLoop_covers (tbl : String) (keys : List String) (cs₀ : List Record)
    (hinj : ∀ v ∈ filterVals keys cs₀, ∀ w ∈ filterVals keys cs₀,
      keyStr v = keyStr w → v = w) :
    ∀ (cs : List Record) (st : InsertState), (∀ c ∈ cs, c ∈ cs₀) → SeenInv keys cs₀ st →
      ∀ c ∈ cs, CoveredP (insertLoop tbl keys st cs).db keys c := by
  intro cs
  induction cs with
  | nil => intro st _ _ c hc; simp at hc
  | cons r rs ih =>
      intro st hsub hinv c hc
      have hr₀ : r ∈ cs₀ := hsub r (List.mem_cons_self r rs)
      rcases List.mem_cons.mp hc with hcr | hcrs
      · -- the head candidate: analyse its own step
        subst hcr
        by_cases hin : keyTupleOf (filtersOf keys c) ∈ st.seen
        · obtain ⟨rec, h1, h2, h3⟩ := hinv _ hin
          have hfe : filtersOf keys rec = filtersOf keys c := by
            apply keyTupleOf_inj _ h3
            intro p hp q hq hkeq
            exact hinj p.2 (mem_filterVals h2 hp) q.2 (mem_filterVals hr₀ hq) hkeq
          have hm : matchesFilters (filtersOf keys c) rec = true := by
            rw [← hfe]; exact matchesFilters_self keys rec
          refine ⟨rec, ?_, hm⟩
          apply insertLoop_db_mono tbl keys rs _
          exact insertStep_db_mono tbl keys st c rec h1
        · cases hf : findMatch st.db (filtersOf keys c) with
          | some rec =>
              obtain ⟨h1, h2⟩ := findMatch_some hf
              refine ⟨rec, ?_, h2⟩
              apply insertLoop_db_mono tbl keys rs _
              exact insertStep_db_mono tbl keys st c rec h1
          | none =>
              refine ⟨c, ?_, matchesFilters_self keys c⟩
              apply insertLoop_db_mono tbl keys rs _
              simp [insertStep, hin, hf]
      · exact ih (insertStep tbl keys st r)
          (fun x hx => hsub x (List.mem_cons_of_mem r hx))
          (insertStep_inv tbl keys cs₀ st r hr₀ hinv) c hcrs

theorem insertLoop_all_covered (tbl : String) (keys : List String) :
    ∀ (cs db : List Record) (a d : Nat) (sk : List SkipEntry),
      (∀ c ∈ cs, CoveredP db keys c) →
      insertLoop tbl keys ⟨db, a, d, sk, []⟩ cs =
        ⟨db, a, d + cs.length, sk ++ cs.map (mkDbDupEntry tbl), []⟩ := by
  intro cs
  induction cs with
  | nil => intro db a d sk _; simp [insertLoop]
  | cons r rs ih =>
      intro db a d sk hcov
      obtain ⟨rec, hrec, hm⟩ := hcov r (List.mem_cons_self r rs)
      have hsome : (findMatch db (filtersOf keys r)).isSome = true :=
        findMatch_isSome hrec hm
      cases hf : findMatch db (filtersOf keys r) with
      | none => rw [hf] at hsome; simp at hsome
      | some rec' =>
          have hstep : insertStep tbl keys ⟨db, a, d, sk, []⟩ r =
              ⟨db, a, d + 1, sk ++ [mkDbDupEntry tbl r], []⟩ := by
            simp [insertStep, hf, mkDbDupEntry]
          rw [insertLoop, hstep, ih db a (d + 1) (sk ++ [mkDbDupEntry tbl r])
            (fun c hc => hcov c (List.mem_cons_of_mem r hc))]
          simp [List.append_assoc]
          omega

/-! ### Foreign-key resolution and filtering (`upload_excel`, data.py) -/

/-- Dict assignment `record[k] = v`: replace the value of an existing
key, or append the key at the end (Python dict insertion order). -/
def setFieldOrAdd (r : Record) (k : String) (v : Value) : Record :=
  if (lookupKV r k).isSome then r.map (fun p => if p.1 = k then (p.1, v) else p)
  else r ++ [(k, v)]

/-- One iteration of the foreign-key lookup loop of `upload_excel`:
given the in-batch `system_id_map` and the fallback query against
already-persisted systems (`dbq`), attach `storage_system_id` to a
record — `None` when the system name resolves nowhere.  A record with a
falsy system name is left untouched (and therefore lacks the id).  A
truthy non-string name (which cannot equal any stored system name) also
resolves nowhere. -/
def resolveOne (dbq : String → Option ℚ) (m : List (String × ℚ)) (r : Record) :
    List (String × ℚ) × Record :=
  let nv := pyGet r "storage_system_name"
  if pyTruthy nv then
    match nv with
    | .VStr s =>
        match lookupKV m s with
        | some i => (m, setFieldOrAdd r "storage_system_id" (.VNum i))
        | Option.none =>
            match dbq s with
            | some i => (m ++ [(s, i)], setFieldOrAdd r "storage_system_id" (.VNum i))
            | Option.none => (m, setFieldOrAdd r "storage_system_id" .VNone)
    | _ => (m, setFieldOrAdd r "storage_system_id" .VNone)
  else (m, r)

/-- The foreign-key lookup loop over all records of a sheet, threading
the map (a successful fallback query is added to the map). -/
def resolveRecords (dbq : String → Option ℚ) (m : List (String × ℚ)) :
    List Record → List Record
  | [] => []
  | r :: rs =>
      let step := resolveOne dbq m r
      step.2 :: resolveRecords dbq step.1 rs

/-- `record.get('storage_system_id') is not None`. -/
def isValidFK (r : Record) : Bool := pyGet r "storage_system_id" ≠ .VNone

/-- A filtered-record audit entry of `upload_excel`. -/
structure FilteredEntry where
  table : String
  reason : String
  identifier : String
  full_row : Record
deriving DecidableEq

/-- Builds the audit entry for a record excluded for a missing storage
system: reason `missing_storage_system: <name>`, a readable identifier,
and the full row with the (None) `storage_system_id` removed. -/
def mkFilteredEntry (sheet : String) (r : Record) : FilteredEntry :=
  let ssn : String :=
    match lookupKV r "storage_system_name" with
    | some v => pyStr v
    | Option.none => "Unknown"
  let identBase : Option Value :=
    let v1 := pyGet r "volume_name"
    if pyTruthy v1 then some v1
    else
      let v2 := pyGet r "name"
      if pyTruthy v2 then some v2 else Option.none
  let ident : String :=
    match identBase with
    | some v => pyStr v
    | Option.none =>
        let poolStr : String :=
          if pyTruthy (pyGet r "pool_name") then pyStr (pyGet r "pool_name")
          else
            match lookupKV r "pool" with
            | some v => pyStr v
            | Option.none => "Unknown"
        ssn ++ "/" ++ poolStr
  { table := sheet,
    reason := "missing_storage_system: " ++ ssn,
    identifier := ident,
    full_row := r.filter (fun p => p.1 ≠ "storage_system_id") }

/-- The validity filter of `upload_excel`: records with a resolved
`storage_system_id` proceed to insertion, the rest become audit
entries, in row order. -/
def filterValidRecords (sheet : String) (rs : List Record) :
    List Record × List FilteredEntry :=
  (rs.filter isValidFK,
   (rs.filter (fun r => ¬ isValidFK r)).map (mkFilteredEntry sheet))

theorem resolveOne_map_stable (dbq : String → Option ℚ) (m : List (String × ℚ))
    (r : Record) (s : String) (hm : lookupKV m s = Option.none)
    (hdb : dbq s = Option.none) :
    lookupKV (resolveOne dbq m r).1 s = Option.none := by
  unfold resolveOne
  cases hv : pyGet r "storage_system_name" with
  | VNone => simp [pyTruthy, hm]
  | VBool b => cases b <;> simp [pyTruthy, hm]
  | VNum q =>
      by_cases hq : q = 0 <;> simp [pyTruthy, hq, hm]
  | VStr t =>
      by_cases ht : t.isEmpty
      · simp [pyTruthy, ht, hm]
      · simp only [pyTruthy, ht, Bool.not_false, if_true]
        cases hlm : lookupKV m t with
        | some i => simpa using hm
        | none =>
            cases hdbq : dbq t with
            | some i =>
                have hts : t ≠ s := by
                  intro h; rw [h, hdb] at hdbq; cases hdbq
                simp only []
                rw [lookupKV_append]
                rw [hm]
                simp [lookupKV, hts]
            | none => simpa using hm

theorem resolveRecords_missing_mem (dbq : String → Option ℚ) (s : String)
    (hdb : dbq s = Option.none) (r : Record)
    (hname : pyGet r "storage_system_name" = .VStr s) (hs : ¬ s.isEmpty) :
    ∀ (rs : List Record) (m : List (String × ℚ)), lookupKV m s = Option.none → r ∈ rs →
      setFieldOrAdd r "storage_system_id" .VNone ∈ resolveRecords dbq m rs := by
  intro rs
  induction rs with
  | nil => intro m _ hr; simp at hr
  | cons r₀ rs' ih =>
      intro m hm hr
      rcases List.mem_cons.mp hr with hr0 | hr'
      · subst hr0
        have hres : (resolveOne dbq m r).2 = setFieldOrAdd r "storage_system_id" .VNone := by
          unfold resolveOne
          rw [hname]
          simp only [pyTruthy, hs, Bool.not_false, if_true]
          rw [hm, hdb]
        rw [resolveRecords]
        rw [hres]
        exact List.mem_cons_self _ _
      · rw [resolveRecords]
        refine List.mem_cons_of_mem _ (ih (resolveOne dbq m r₀).1 ?_ hr')
        exact resolveOne_map_stable dbq m r₀ s hm hdb

/-! ### The transactional skeleton of `upload_excel` (data.py) -/

/-- An `upload_logs` row, restricted to the fields the skeleton sets. -/
structure UploadLogRec where
  file_name : String
  rows_added : Nat
  duplicates_skipped : Nat
  errors : String
  status : String
deriving DecidableEq

/-- The database session: committed entity rows and upload logs, plus
the pending (uncommitted) rows of the open transaction. -/
structure Sess where
  entities : List Record
  logs : List UploadLogRec
  pendingEntities : List Record
  pendingLogs : List UploadLogRec
deriving DecidableEq

/-- `db.commit()`: pending work becomes durable. -/
def sessCommit (s : Sess) : Sess :=
  ⟨s.entities ++ s.pendingEntities, s.logs ++ s.pendingLogs, [], []⟩

/-- `db.rollback()`: pending work is discarded, committed state is kept. -/
def sessRollback (s : Sess) : Sess := ⟨s.entities, s.logs, [], []⟩

/-- `db.add(log)` (still uncommitted). -/
def addPendingLog (s : Sess) (l : UploadLogRec) : Sess :=
  { s with pendingLogs := s.pendingLogs ++ [l] }

/-- The provisional upload log created (and flushed, not committed)
before processing starts. -/
def processingLog (fn : String) : UploadLogRec := ⟨fn, 0, 0, "", "processing"⟩

/-- The minimal audit record committed on the failure path: zero rows,
only the failure reason, status `failed`. -/
def failedLog (fn err : String) : UploadLogRec := ⟨fn, 0, 0, err, "failed"⟩

/-- Embeds the try/except skeleton of `upload_excel` around the
processing phase (everything up to the first `db.commit()`), which is
abstracted as `proc`: it returns either the session carrying all pending
inserts together with the run totals (rows added, duplicates, error
details), or the error and the session at the moment an exception
escaped.  On success the transaction is committed and the provisional
log finalized; on failure the session is rolled back and only a minimal
`failed` log is committed. -/
def upload_excel_run (s₀ : Sess) (fn : String)
    (proc : Sess → Except (String × Sess) (Sess × Nat × Nat × String)) : Sess × String :=
  let s₁ := addPendingLog s₀ (processingLog fn)
  match proc s₁ with
  | .ok (s₂, added, dups, details) =>
      let s₃ := sessCommit s₂
      let s₄ : Sess :=
        { s₃ with
          logs := s₃.logs.map fun l =>
            if l.status = "processing" ∧ l.file_name = fn then
              ⟨fn, added, dups, details, "success"⟩
            else l }
      (sessCommit s₄, "success")
  | .error (e, sE) =>
      let sR := sessRollback sE
      let sF := addPendingLog sR (failedLog fn e)
      (sessCommit sF, "failed")

/-! ### Alert persistence with suppression (`upload_excel`, data.py) -/

/-- An `alerts` row as built by `generate_alerts_from_pools`. -/
structure AlertRec where
  pool_name : String
  storage_system : String
  utilization_pct : ℚ
  level : String
  message : String
  days_until_full : ℤ
  acknowledged : Bool
deriving DecidableEq

/-- The suppression query: an unacknowledged alert for the same pool
and storage system. -/
def sameUnacknowledged (p s : String) (a : AlertRec) : Bool :=
  a.pool_name = p ∧ a.storage_system = s ∧ a.acknowledged = false

/-- Embeds the alert-persistence loop of `upload_excel`: each candidate
is added only when no unacknowledged alert for its pool and system is
already visible to the session (alerts added earlier in the same loop
included, as the session's autoflush makes them visible). -/
def persist_alerts (db : List AlertRec) : List AlertRec → List AlertRec
  | [] => db
  | c :: rest =>
      if db.any (sameUnacknowledged c.pool_name c.storage_system) then
        persist_alerts db rest
      else
        persist_alerts (db ++ [c]) rest

/-! ## Claim theorems -/

/-- C10: `calculate_utilization_pct` is total and never divides by zero —
whenever the total is `0` or either argument is `NaN`/`None` it returns
`0.0`, so a pool or system with zero usable capacity reports `0.0%`
utilization and triggers no alert. -/
theorem c10_utilization_pct_total_and_safe :
    (∀ u : Option ℚ, calculate_utilization_pct u (some 0) = 0)
    ∧ (∀ t : Option ℚ, calculate_utilization_pct Option.none t = 0)
    ∧ (∀ u : Option ℚ, calculate_utilization_pct u Option.none = 0)
    ∧ (∀ u : Option ℚ, get_alert_level (calculate_utilization_pct u (some 0)) = Option.none) := by
  have hzero : ∀ u : Option ℚ, calculate_utilization_pct u (some 0) = 0 := by
    intro u; cases u <;> simp [calculate_utilization_pct]
  refine ⟨hzero, ?_, ?_, ?_⟩
  · intro t; cases t <;> rfl
  · intro u; cases u <;> rfl
  · intro u
    rw [hzero u]
    norm_num [get_alert_level]

/-- C9: storage-system name normalization is idempotent —
`normalize(normalize(x)) = normalize(x)` for all inputs (including the
`None`/`NaN` passthrough) — and unifies underscore/hyphen variants:
`normalize("FS92K_A1") = normalize("FS92K-A1")`. -/
theorem c9_normalize_idempotent_and_unifies :
    (∀ x : Option PyS, normalizeNameOpt (normalizeNameOpt x) = normalizeNameOpt x)
    ∧ normalize_storage_system_name "FS92K_A1".toList
        = normalize_storage_system_name "FS92K-A1".toList := by
  constructor
  · intro x
    cases x with
    | none => rfl
    | some s => simp [normalizeNameOpt, normalize_name_idem]
  · decide

/-- C3 counterexample: the claim's equation `utilization_pct =
used/usable * 100` fails on a row with `usable = 3`, `available = 2` —
the persisted value is the two-decimal rounding `33.33`, not `100/3`. -/
theorem c3_counterexample :
    (calculate_pool_utilization [⟨some 3, some 2, .VNone, .VNone⟩]).map
        (fun r => r.utilization_pct)
      ≠ [.VNum ((3 - 2) / 3 * 100)] := by
  intro h
  simp only [calculate_pool_utilization, List.map_cons, List.map_nil,
    Option.getD_some, List.cons.injEq, and_true, Value.VNum.injEq] at h
  rw [show calculate_utilization_pct (some ((3 : ℚ) - 2)) (some 3)
      = if (3 : ℚ) = 0 then 0 else round2 ((3 - 2) / 3 * 100) from rfl] at h
  rw [if_neg (by norm_num : ¬(3 : ℚ) = 0)] at h
  rw [round2, pyRound_low ((3 - 2) / 3 * 100 * 100 : ℚ) 3333 (by norm_num) (by norm_num)] at h
  norm_num at h

/-- C3 (amended): for every transformed pool row carrying
`usable_capacity_gib = u ≠ 0` and `available_capacity_gib = a`, the
persisted `used_capacity_gib` is `u - a` regardless of any raw
used-capacity value, and `utilization_pct` is `(u - a)/u * 100` rounded
to two decimals. -/
theorem c3_pool_derived_fields (rows : List PoolRow) (r : PoolRow) (u a : ℚ)
    (hr : r ∈ rows) (hu : r.usable_capacity_gib = some u)
    (ha : r.available_capacity_gib = some a) (hz : u ≠ 0) :
    { r with
      used_capacity_gib := .VNum (u - a),
      utilization_pct := .VNum (round2 ((u - a) / u * 100)) }
      ∈ calculate_pool_utilization rows := by
  unfold calculate_pool_utilization
  refine List.mem_map.mpr ⟨r, hr, ?_⟩
  simp [hu, ha, calculate_utilization_pct, hz]

/-- C3 witness: `usable = 100`, `available = 30` and a raw used value of
`999` yield `used_capacity_gib = 70` and `utilization_pct = 70.0`. -/
theorem c3_pool_derived_fields_witness :
    (100 : ℚ) ≠ 0
    ∧ ((100 : ℚ) - 30 = 70 ∧ round2 (((100 : ℚ) - 30) / 100 * 100) = 70)
    ∧ { (⟨some 100, some 30, .VNum 999, .VNone⟩ : PoolRow) with
        used_capacity_gib := .VNum ((100 : ℚ) - 30),
        utilization_pct := .VNum (round2 (((100 : ℚ) - 30) / 100 * 100)) }
      ∈ calculate_pool_utilization [⟨some 100, some 30, .VNum 999, .VNone⟩] := by
  refine ⟨by norm_num, ⟨by norm_num, ?_⟩, ?_⟩
  · rw [round2,
      pyRound_low (((100 : ℚ) - 30) / 100 * 100 * 100) 7000 (by norm_num) (by norm_num)]
    norm_num
  · exact c3_pool_derived_fields [⟨some 100, some 30, .VNum 999, .VNone⟩]
      ⟨some 100, some 30, .VNum 999, .VNone⟩ 100 30 (List.mem_singleton.mpr rfl)
      rfl rfl (by norm_num)

/-- C2 counterexample: the claim's "always recomputed" fails — a
FlashSystem volume row with a non-blank source `available_capacity_gib`
of `7` keeps `7`; it is not replaced by `provisioned - used = 8`. -/
theorem c2_counterexample :
    (calculate_flashsystem_available_capacity
        [⟨.VStr "A9K-A1", some 10, some 2, some 7, Option.none⟩]).map
      (fun r => r.available_capacity_gib)
      ≠ [some ((10 : ℚ) - 2)] := by
  have hrow : calculate_flashsystem_available_capacity
      [⟨.VStr "A9K-A1", some 10, some 2, some 7, Option.none⟩]
      = [⟨.VStr "A9K-A1", some 10, some 2, some 7, Option.none⟩] := by
    simp [calculate_flashsystem_available_capacity, flashFillStep]
  rw [hrow]
  intro h
  simp only [List.map_cons, List.map_nil, List.cons.injEq, and_true,
    Option.some.injEq] at h
  norm_num at h

/-- C2 (amended): the volume derived-field pass — the FlashSystem
fill applied first, then the spec-modelled overhead computation — acts
on every row exactly as the per-row case split `c2_spec_step`:
FlashSystem rows get `available = provisioned - used` only when the
source value is blank, all other rows get
`overhead_used_capacity = provisioned - used - available`, and the two
derivations are mutually exclusive per row. -/
theorem c2_volume_derived_fields (rows : List VolumeRow) :
    calculate_overhead_used_capacity (calculate_flashsystem_available_capacity rows)
      = rows.map c2_spec_step := by
  unfold calculate_overhead_used_capacity calculate_flashsystem_available_capacity
  rw [List.map_map]
  apply List.map_congr_left
  intro r _
  simp only [Function.comp_apply]
  by_cases hf : isFlashSystemRow r = true
  · by_cases ha : r.available_capacity_gib = Option.none
    · have hcond : isFlashSystemRow r = true ∧ r.available_capacity_gib = Option.none :=
        ⟨hf, ha⟩
      rw [flashFillStep, if_pos hcond, overheadStep,
        if_pos (show isFlashSystemRow { r with available_capacity_gib := some (r.provisioned_capacity_gib.getD 0 - r.used_capacity_gib.getD 0) } = true from hf),
        c2_spec_step, if_pos hf, if_pos ha]
    · have hcond : ¬(isFlashSystemRow r = true ∧ r.available_capacity_gib = Option.none) :=
        fun hand => ha hand.2
      rw [flashFillStep, if_neg hcond, overheadStep, if_pos hf, c2_spec_step,
        if_pos hf, if_neg ha]
  · have hcond : ¬(isFlashSystemRow r = true ∧ r.available_capacity_gib = Option.none) :=
      fun hand => hf hand.1
    rw [flashFillStep, if_neg hcond, overheadStep, if_neg hf, c2_spec_step, if_neg hf]

/-- C7 counterexample: a pool at 50% utilization with an actual growth
figure of `0` GiB/day over a total of `100` GiB: the source keeps the
1%-per-day baseline and reports 50 days, while the claim's wording
(actual rate floored at 0.1%) would report 500 days. -/
theorem c7_counterexample :
    calculate_days_until_full (some 50) (some 0) (some 100)
      ≠ c7_claimed_days 50 (some 0) (some 100) := by
  have hL : calculate_days_until_full (some 50) (some 0) (some 100) = 50 := by
    simp only [calculate_days_until_full]
    rw [if_neg (by norm_num : ¬(100 : ℚ) ≤ 50),
      if_pos (by norm_num : (0 : ℚ) < 100),
      if_neg (by norm_num : ¬(0 : ℚ) < 0 / 100 * 100),
      if_neg (by norm_num : ¬(95 : ℚ) < 50),
      if_neg (by norm_num : ¬(80 : ℚ) < 50),
      show ((100 : ℚ) - 50) / 1 = 50 by norm_num]
    rw [pyInt, if_pos (by norm_num : (0 : ℚ) ≤ 50), qfloor]
    norm_num
  have hrate : c7_claimed_rate 50 (some 0) (some 100) = 1/10 := by
    rw [c7_claimed_rate, if_pos (by norm_num : (0 : ℚ) < 100)]
    norm_num
  have hR : c7_claimed_days 50 (some 0) (some 100) = 500 := by
    rw [c7_claimed_days, hrate,
      show ((100 : ℚ) - 50) / (1/10) = 500 by norm_num]
    rw [pyInt, if_pos (by norm_num : (0 : ℚ) ≤ 500), qfloor]
    norm_num
  rw [hL, hR]
  norm_num

/-- C7 (amended): severity is exactly the ≥100/≥98/≥90 tiering, and for
utilization below 100 with a positive total capacity the
days-until-full is `(100 - u)` over the daily growth percentage,
trimmed at 0 and truncated — where the actual growth rate (as a
percentage of total capacity, floored at 0.1) overrides the 3-tier
baseline only when that percentage is strictly positive; a zero or
negative growth figure leaves the baseline in effect. -/
theorem c7_alert_levels_and_days :
    (∀ u : ℚ,
      (get_alert_level u = some "emergency" ↔ 100 ≤ u)
      ∧ (get_alert_level u = some "critical" ↔ 98 ≤ u ∧ u < 100)
      ∧ (get_alert_level u = some "warning" ↔ 90 ≤ u ∧ u < 98)
      ∧ (get_alert_level u = Option.none ↔ u < 90))
    ∧ (∀ u g t : ℚ, u < 100 → 0 < t →
        (0 < g / t * 100 →
          calculate_days_until_full (some u) (some g) (some t)
            = max 0 (pyInt ((100 - u) / max (g / t * 100) (1/10))))
        ∧ (g / t * 100 ≤ 0 →
          calculate_days_until_full (some u) (some g) (some t)
            = max 0 (pyInt ((100 - u) /
                (if 95 < u then 2 else if 80 < u then 3/2 else 1))))) := by
  constructor
  · intro u
    unfold get_alert_level
    split_ifs with h1 h2 h3
    · exact ⟨⟨fun _ => h1, fun _ => rfl⟩,
        ⟨fun h => absurd h (by decide), fun hh => ((not_le.mpr hh.2) h1).elim⟩,
        ⟨fun h => absurd h (by decide), fun hh => (by linarith [hh.2] : False).elim⟩,
        ⟨fun h => absurd h (by decide), fun hh => (by linarith : False).elim⟩⟩
    · exact ⟨⟨fun h => absurd h (by decide), fun hh => (h1 hh).elim⟩,
        ⟨fun _ => ⟨h2, not_le.mp h1⟩, fun _ => rfl⟩,
        ⟨fun h => absurd h (by decide), fun hh => ((not_le.mpr hh.2) h2).elim⟩,
        ⟨fun h => absurd h (by decide), fun hh => (by linarith : False).elim⟩⟩
    · exact ⟨⟨fun h => absurd h (by decide), fun hh => (h1 hh).elim⟩,
        ⟨fun h => absurd h (by decide), fun hh => (h2 hh.1).elim⟩,
        ⟨fun _ => ⟨h3, not_le.mp h2⟩, fun _ => rfl⟩,
        ⟨fun h => absurd h (by decide), fun hh => ((not_le.mpr hh) h3).elim⟩⟩
    · exact ⟨⟨fun h => absurd h (by decide), fun hh => (h1 hh).elim⟩,
        ⟨fun h => absurd h (by decide), fun hh => (h2 hh.1).elim⟩,
        ⟨fun h => absurd h (by decide), fun hh => (h3 hh.1).elim⟩,
        ⟨fun _ => not_le.mp h3, fun _ => rfl⟩⟩
  · intro u g t hu ht
    constructor
    · intro hpos
      simp only [calculate_days_until_full]
      rw [if_neg (not_le.mpr hu)]
      simp only [if_pos ht, if_pos hpos]
    · intro hneg
      simp only [calculate_days_until_full]
      rw [if_neg (not_le.mpr hu)]
      simp only [if_pos ht, if_neg (not_lt.mpr hneg)]

/-- C7 witness: at 50% utilization with growth 2 GiB/day over 100 GiB
total, the actual 2%-per-day rate overrides the baseline. -/
theorem c7_alert_levels_and_days_witness :
    ((50 : ℚ) < 100 ∧ (0 : ℚ) < 100 ∧ (0 : ℚ) < 2 / 100 * 100) ∧
    calculate_days_until_full (some 50) (some 2) (some 100)
      = max 0 (pyInt ((100 - 50) / max ((2 : ℚ) / 100 * 100) (1/10))) :=
  ⟨⟨by norm_num, by norm_num, by norm_num⟩,
   (c7_alert_levels_and_days.2 50 2 100 (by norm_num) (by norm_num)).1 (by norm_num)⟩

theorem lookupKV_setField_ne (r : Record) (k k' : String) (v : Value) (h : k ≠ k') :
    lookupKV (setField r k' v) k = lookupKV r k := by
  induction r with
  | nil => rfl
  | cons p rest ih =>
      obtain ⟨k₀, v₀⟩ := p
      simp only [setField, List.map_cons] at ih ⊢
      by_cases hp : k₀ = k'
      · rw [if_pos hp]
        simp only [lookupKV]
        have hpk : ¬ k₀ = k := fun hh => h (by rw [← hh]; exact hp)
        rw [if_neg hpk, if_neg hpk]
        exact ih
      · rw [if_neg hp]
        simp only [lookupKV]
        by_cases hpk : k₀ = k
        · rw [if_pos hpk, if_pos hpk]
        · rw [if_neg hpk, if_neg hpk]
          exact ih

theorem lookupKV_setField_eq (r : Record) (k : String) (v : Value)
    (h : (lookupKV r k).isSome = true) : lookupKV (setField r k v) k = some v := by
  induction r with
  | nil => simp [lookupKV] at h
  | cons p rest ih =>
      obtain ⟨k₀, v₀⟩ := p
      simp only [setField, List.map_cons] at ih ⊢
      by_cases hp : k₀ = k
      · rw [if_pos hp]
        simp only [lookupKV]
        rw [if_pos hp]
      · rw [if_neg hp]
        simp only [lookupKV]
        rw [if_neg hp]
        apply ih
        simp only [lookupKV] at h
        rw [if_neg hp] at h
        exact h

theorem foldl_hostFoldStep_of_not_mem (g : List Record) (f : String) :
    ∀ fs : List String, f ∉ fs → ∀ base : Record,
      lookupKV (fs.foldl (hostFoldStep g) base) f = lookupKV base f := by
  intro fs
  induction fs with
  | nil => intro _ base; rfl
  | cons x rest ih =>
      intro hf base
      have hfx : f ≠ x := fun h => hf (h ▸ List.mem_cons_self x rest)
      rw [List.foldl_cons, ih (fun h => hf (List.mem_cons_of_mem x h))]
      rw [hostFoldStep]
      by_cases hx : (lookupKV base x).isSome = true
      · rw [if_pos hx, lookupKV_setField_ne base f x _ hfx]
      · rw [if_neg hx]

theorem foldl_hostFoldStep_of_mem (g : List Record) (f : String) :
    ∀ fs : List String, fs.Nodup → f ∈ fs → ∀ base : Record,
      (lookupKV base f).isSome = true →
      lookupKV (fs.foldl (hostFoldStep g) base) f = some (sumValOf g f) := by
  intro fs
  induction fs with
  | nil => intro _ hmem; simp at hmem
  | cons x rest ih =>
      intro hnd hmem base hsome
      rw [List.foldl_cons]
      by_cases hfx : f = x
      · subst hfx
        rw [hostFoldStep, if_pos hsome]
        have hnotin : f ∉ rest := (List.nodup_cons.mp hnd).1
        rw [foldl_hostFoldStep_of_not_mem g f rest hnotin _,
          lookupKV_setField_eq base f _ hsome]
      · have hmem' : f ∈ rest := by
          rcases List.mem_cons.mp hmem with h | h
          · exact absurd h hfx
          · exact h
        have hnd' : rest.Nodup := (List.nodup_cons.mp hnd).2
        rw [hostFoldStep]
        by_cases hx : (lookupKV base x).isSome = true
        · rw [if_pos hx]
          apply ih hnd' hmem'
          rw [lookupKV_setField_ne base f x _ hfx]
          exact hsome
        · rw [if_neg hx]
          exact ih hnd' hmem' base hsome

/-- C4: `aggregate_host_duplicates` groups the batch by the unique key;
every singleton group passes through unchanged; every larger group
collapses to a single record whose non-`sum_fields` attributes come from
the first member, whose `sum_fields` columns (when the first member
carries them) hold the group total — stored as absent (`None`) when the
total is not positive — and each collapse yields an audit entry tagged
`aggregated_<n>_duplicates`. -/
theorem c4_host_aggregation (records : List Record) (keys : List String)
    (g : List Record) (hg : g ∈ hostGroups keys records) :
    (g.length = 1 → g.headD [] ∈ (aggregate_host_duplicates records keys).1)
    ∧ (2 ≤ g.length →
        combineHost g ∈ (aggregate_host_duplicates records keys).1
        ∧ mkAggInfo g ∈ (aggregate_host_duplicates records keys).2
        ∧ (mkAggInfo g).reason = "aggregated_" ++ toString g.length ++ "_duplicates"
        ∧ (mkAggInfo g).original_count = some g.length
        ∧ (∀ f, f ∉ sum_fields → lookupKV (combineHost g) f = lookupKV (g.headD []) f)
        ∧ (∀ f ∈ sum_fields, (lookupKV (g.headD []) f).isSome = true →
            lookupKV (combineHost g) f
              = some (if 0 < ((g.filter (fun r => pyGet r f ≠ .VNone)).map
                          (fun r => pyFloatOr0 (pyGet r f))).sum
                      then .VNum ((g.filter (fun r => pyGet r f ≠ .VNone)).map
                          (fun r => pyFloatOr0 (pyGet r f))).sum
                      else .VNone))) := by
  constructor
  · intro h1
    exact List.mem_map.mpr ⟨g, hg, by rw [if_pos h1]⟩
  · intro h2
    have hne : ¬ g.length = 1 := by omega
    obtain ⟨base, rest, hbr⟩ : ∃ base rest, g = base :: rest := by
      cases g with
      | nil => simp at h2
      | cons b r => exact ⟨b, r, rfl⟩
    refine ⟨List.mem_map.mpr ⟨g, hg, by rw [if_neg hne]⟩,
      List.mem_map.mpr ⟨g, List.mem_filter.mpr ⟨hg, by simpa using h2⟩, rfl⟩,
      rfl, rfl, ?_, ?_⟩
    · intro f hf
      subst hbr
      exact foldl_hostFoldStep_of_not_mem (base :: rest) f sum_fields hf base
    · intro f hf hsome
      subst hbr
      have h := foldl_hostFoldStep_of_mem (base :: rest) f sum_fields
        (by decide) hf base hsome
      rw [show combineHost (base :: rest) = sum_fields.foldl (hostFoldStep (base :: rest)) base from rfl, h]
      rfl

/-- C4 witness rows: two host rows for the same `(report_date, name)`
with `san_capacity_gib` 100 and 50. -/
def c4Row1 : Record :=
  [("report_date", .VStr "2024-01-01"), ("name", .VStr "h1"), ("san_capacity_gib", .VNum 100)]

/-- The second C4 witness row. -/
def c4Row2 : Record :=
  [("report_date", .VStr "2024-01-01"), ("name", .VStr "h1"), ("san_capacity_gib", .VNum 50)]

/-- C4 witness: the two rows form one group of size 2, the collapsed
record is produced with `san_capacity_gib = 150`, and the audit entry is
tagged `aggregated_2_duplicates`. -/
theorem c4_host_aggregation_witness :
    ([c4Row1, c4Row2] ∈ hostGroups ["report_date", "name"] [c4Row1, c4Row2]
      ∧ 2 ≤ ([c4Row1, c4Row2] : List Record).length
      ∧ "san_capacity_gib" ∈ sum_fields
      ∧ (lookupKV (([c4Row1, c4Row2] : List Record).headD []) "san_capacity_gib").isSome = true)
    ∧ combineHost [c4Row1, c4Row2]
        ∈ (aggregate_host_duplicates [c4Row1, c4Row2] ["report_date", "name"]).1
    ∧ (mkAggInfo [c4Row1, c4Row2]).reason = "aggregated_2_duplicates"
    ∧ lookupKV (combineHost [c4Row1, c4Row2]) "san_capacity_gib" = some (.VNum 150) := by
  have hg : [c4Row1, c4Row2] ∈ hostGroups ["report_date", "name"] [c4Row1, c4Row2] := by
    decide
  have h := (c4_host_aggregation [c4Row1, c4Row2] ["report_date", "name"]
    [c4Row1, c4Row2] hg).2 (by decide)
  refine ⟨⟨hg, by decide, by decide, by decide⟩, h.1, h.2.2.1, ?_⟩
  have hsum := h.2.2.2.2.2 "san_capacity_gib" (by decide) (by decide)
  rw [hsum]
  have htot : (([c4Row1, c4Row2].filter
        (fun r => pyGet r "san_capacity_gib" ≠ .VNone)).map
      (fun r => pyFloatOr0 (pyGet r "san_capacity_gib"))).sum = 150 := by
    have hfil : ([c4Row1, c4Row2].filter
        (fun r => pyGet r "san_capacity_gib" ≠ .VNone)) = [c4Row1, c4Row2] := by decide
    rw [hfil]
    have h1 : pyFloatOr0 (pyGet c4Row1 "san_capacity_gib") = 100 := by decide
    have h2 : pyFloatOr0 (pyGet c4Row2 "san_capacity_gib") = 50 := by decide
    simp [h1, h2]
    norm_num
  rw [htot, if_pos (by norm_num : (0 : ℚ) < 150)]

/-- C8: if an unacknowledged alert for a pool/system pair already
exists, no candidate for that pair is ever persisted — the set of alert
rows for the pair is unchanged by the whole persistence loop, whatever
the candidates are. -/
theorem c8_alert_suppression (cands : List AlertRec) (p s : String) :
    ∀ db : List AlertRec, db.any (sameUnacknowledged p s) = true →
      (persist_alerts db cands).filter
          (fun a => a.pool_name = p ∧ a.storage_system = s)
        = db.filter (fun a => a.pool_name = p ∧ a.storage_system = s) := by
  induction cands with
  | nil => intro db _; rfl
  | cons c rest ih =>
      intro db h
      rw [persist_alerts]
      by_cases hc : db.any (sameUnacknowledged c.pool_name c.storage_system) = true
      · rw [if_pos hc]
        exact ih db h
      · rw [if_neg hc]
        have hcne : ¬(c.pool_name = p ∧ c.storage_system = s) := by
          rintro ⟨hp, hs⟩
          apply hc
          rw [hp, hs]
          exact h
        have hany : (db ++ [c]).any (sameUnacknowledged p s) = true := by
          rw [List.any_append]
          simp [h]
        have hfilter : (db ++ [c]).filter (fun a => a.pool_name = p ∧ a.storage_system = s)
            = db.filter (fun a => a.pool_name = p ∧ a.storage_system = s) := by
          rw [List.filter_append]
          simp [List.filter_cons, hcne]
        rw [ih (db ++ [c]) hany, hfilter]

/-- C8 witness: with an existing unacknowledged critical alert for pool
`P` on system `S`, a second candidate for `P`/`S` adds no row. -/
theorem c8_alert_suppression_witness :
    ([(⟨"P", "S", 99, "critical", "m", 3, false⟩ : AlertRec)].any
        (sameUnacknowledged "P" "S") = true)
    ∧ (persist_alerts [(⟨"P", "S", 99, "critical", "m", 3, false⟩ : AlertRec)]
          [⟨"P", "S", 99, "critical", "m2", 3, false⟩]).filter
        (fun a => a.pool_name = "P" ∧ a.storage_system = "S")
      = [(⟨"P", "S", 99, "critical", "m", 3, false⟩ : AlertRec)].filter
          (fun a => a.pool_name = "P" ∧ a.storage_system = "S") :=
  ⟨by decide,
   c8_alert_suppression [⟨"P", "S", 99, "critical", "m2", 3, false⟩] "P" "S"
     [⟨"P", "S", 99, "critical", "m", 3, false⟩] (by decide)⟩

/-- C6: when processing raises (and processing itself has committed
nothing), the whole transaction is rolled back — the committed entity
rows are exactly those before the run — and the only durable trace is a
minimal `failed` audit record carrying the failure reason and zero
counts. -/
theorem c6_failed_run_rolls_back (s₀ : Sess) (fn e : String) (sE : Sess)
    (proc : Sess → Except (String × Sess) (Sess × Nat × Nat × String))
    (hproc : proc (addPendingLog s₀ (processingLog fn)) = .error (e, sE))
    (hent : sE.entities = s₀.entities) (hlog : sE.logs = s₀.logs) :
    (upload_excel_run s₀ fn proc).1.entities = s₀.entities
    ∧ (upload_excel_run s₀ fn proc).1.logs = s₀.logs ++ [failedLog fn e]
    ∧ (upload_excel_run s₀ fn proc).2 = "failed"
    ∧ (failedLog fn e).rows_added = 0
    ∧ (failedLog fn e).duplicates_skipped = 0
    ∧ (failedLog fn e).errors = e
    ∧ (failedLog fn e).status = "failed" := by
  simp only [upload_excel_run, hproc]
  simp [sessCommit, sessRollback, addPendingLog, hent, hlog, failedLog]

/-- C6 witness: a processing phase that raises mid-run leaves the one
pre-existing entity row untouched and commits only the failed log. -/
theorem c6_failed_run_rolls_back_witness :
    ((fun s => (.error ("storage connectivity lost", s) :
          Except (String × Sess) (Sess × Nat × Nat × String)))
        (addPendingLog ⟨[[("name", .VStr "sys1")]], [], [], []⟩ (processingLog "report.xlsx"))
      = .error ("storage connectivity lost",
          addPendingLog ⟨[[("name", .VStr "sys1")]], [], [], []⟩ (processingLog "report.xlsx")))
    ∧ (upload_excel_run ⟨[[("name", .VStr "sys1")]], [], [], []⟩ "report.xlsx"
        (fun s => .error ("storage connectivity lost", s))).1.entities
      = [[("name", .VStr "sys1")]]
    ∧ (upload_excel_run ⟨[[("name", .VStr "sys1")]], [], [], []⟩ "report.xlsx"
        (fun s => .error ("storage connectivity lost", s))).1.logs
      = [] ++ [failedLog "report.xlsx" "storage connectivity lost"]
    ∧ (upload_excel_run ⟨[[("name", .VStr "sys1")]], [], [], []⟩ "report.xlsx"
        (fun s => .error ("storage connectivity lost", s))).2 = "failed" := by
  have h := c6_failed_run_rolls_back ⟨[[("name", .VStr "sys1")]], [], [], []⟩
    "report.xlsx" "storage connectivity lost"
    (addPendingLog ⟨[[("name", .VStr "sys1")]], [], [], []⟩ (processingLog "report.xlsx"))
    (fun s => .error ("storage connectivity lost", s)) rfl rfl rfl
  exact ⟨rfl, h.1, h.2.1, h.2.2.1⟩

/-- C5: a pool/volume/disk record whose (nonempty) storage system name
is found neither in the in-batch map nor by the fallback query is never
persisted: it fails the validity filter, is absent from the records
passed to insertion, and instead yields a filtered-records audit entry
with reason `missing_storage_system: <name>` whose `full_row` is exactly
the original row. -/
theorem c5_missing_system_excluded (sheet : String) (dbq : String → Option ℚ)
    (m₀ : List (String × ℚ)) (rs : List Record) (r : Record) (s : String)
    (hr : r ∈ rs)
    (hname : pyGet r "storage_system_name" = .VStr s)
    (hs : ¬ s.isEmpty = true)
    (hmap : lookupKV m₀ s = Option.none)
    (hdb : dbq s = Option.none)
    (hsid : lookupKV r "storage_system_id" = Option.none) :
    isValidFK (setFieldOrAdd r "storage_system_id" .VNone) = false
    ∧ setFieldOrAdd r "storage_system_id" .VNone
        ∉ (filterValidRecords sheet (resolveRecords dbq m₀ rs)).1
    ∧ mkFilteredEntry sheet (setFieldOrAdd r "storage_system_id" .VNone)
        ∈ (filterValidRecords sheet (resolveRecords dbq m₀ rs)).2
    ∧ (mkFilteredEntry sheet (setFieldOrAdd r "storage_system_id" .VNone)).reason
        = "missing_storage_system: " ++ s
    ∧ (mkFilteredEntry sheet (setFieldOrAdd r "storage_system_id" .VNone)).full_row = r := by
  have hx : setFieldOrAdd r "storage_system_id" .VNone
      = r ++ [("storage_system_id", .VNone)] := by
    rw [setFieldOrAdd, if_neg]
    rw [hsid]
    simp
  have hlookx : lookupKV (setFieldOrAdd r "storage_system_id" .VNone)
      "storage_system_id" = some .VNone := by
    rw [hx, lookupKV_append, hsid]
    rfl
  have hvalid : isValidFK (setFieldOrAdd r "storage_system_id" .VNone) = false := by
    rw [isValidFK, pyGet, hlookx]
    rfl
  have hmem : setFieldOrAdd r "storage_system_id" .VNone ∈ resolveRecords dbq m₀ rs :=
    resolveRecords_missing_mem dbq s hdb r hname (by simpa using hs) rs m₀ hmap hr
  have hlookname : lookupKV r "storage_system_name" = some (.VStr s) := by
    cases hl : lookupKV r "storage_system_name" with
    | none => rw [pyGet, hl] at hname; cases hname
    | some v =>
        rw [pyGet, hl] at hname
        simp only [Option.getD_some] at hname
        rw [hname]
  have hssn : lookupKV (setFieldOrAdd r "storage_system_id" .VNone)
      "storage_system_name" = some (.VStr s) := by
    rw [hx, lookupKV_append, hlookname]
  refine ⟨hvalid, ?_, ?_, ?_, ?_⟩
  · intro hmem1
    have := (List.mem_filter.mp hmem1).2
    rw [hvalid] at this
    cases this
  · exact List.mem_map.mpr
      ⟨setFieldOrAdd r "storage_system_id" .VNone,
       List.mem_filter.mpr ⟨hmem, by rw [hvalid]; rfl⟩, rfl⟩
  · simp only [mkFilteredEntry, hssn]
    rfl
  · simp only [mkFilteredEntry]
    rw [hx, List.filter_append, lookupKV_none_filter r _ hsid]
    simp [List.filter_cons]

/-- C5 witness row: a pool row naming a storage system that exists
nowhere. -/
def c5Row : Record :=
  [("report_date", .VStr "2024-01-01"), ("name", .VStr "pool1"),
   ("storage_system_name", .VStr "GHOST-1")]

/-- C5 witness: with an unrelated in-batch map and an empty fallback,
the `GHOST-1` pool row is excluded and audited with reason
`missing_storage_system: GHOST-1` and its exact original row. -/
theorem c5_missing_system_excluded_witness :
    (c5Row ∈ [c5Row]
      ∧ pyGet c5Row "storage_system_name" = .VStr "GHOST-1"
      ∧ ¬ ("GHOST-1").isEmpty = true
      ∧ lookupKV [("OTHER", (3 : ℚ))] "GHOST-1" = Option.none
      ∧ lookupKV c5Row "storage_system_id" = Option.none)
    ∧ isValidFK (setFieldOrAdd c5Row "storage_system_id" .VNone) = false
    ∧ setFieldOrAdd c5Row "storage_system_id" .VNone
        ∉ (filterValidRecords "Storage_Pools"
            (resolveRecords (fun _ => Option.none) [("OTHER", (3 : ℚ))] [c5Row])).1
    ∧ mkFilteredEntry "Storage_Pools" (setFieldOrAdd c5Row "storage_system_id" .VNone)
        ∈ (filterValidRecords "Storage_Pools"
            (resolveRecords (fun _ => Option.none) [("OTHER", (3 : ℚ))] [c5Row])).2
    ∧ (mkFilteredEntry "Storage_Pools"
        (setFieldOrAdd c5Row "storage_system_id" .VNone)).reason
        = "missing_storage_system: " ++ "GHOST-1"
    ∧ (mkFilteredEntry "Storage_Pools"
        (setFieldOrAdd c5Row "storage_system_id" .VNone)).full_row = c5Row := by
  have h := c5_missing_system_excluded "Storage_Pools" (fun _ => Option.none)
    [("OTHER", (3 : ℚ))] [c5Row] c5Row "GHOST-1"
    (List.mem_singleton.mpr rfl) (by decide) (by decide) (by decide) rfl (by decide)
  exact ⟨⟨List.mem_singleton.mpr rfl, by decide, by decide, by decide, by decide⟩,
    h.1, h.2.1, h.2.2.1, h.2.2.2.1, h.2.2.2.2⟩

/-- C1: ingestion is idempotent per unique key — for any table (host
tables included, via their aggregation pass), re-running
`insert_data_with_duplicate_check` on the same records over the database
produced by the first run adds zero rows, leaves the table unchanged,
counts every candidate as a duplicate, and records every candidate as
skipped with reason `already_exists_in_db` (after the deterministic
aggregation audit entries).  The hypothesis states that the string
rendering of the unique-key values occurring in the batch is collision
free, which Python's `str` is on the value types the cleaning pipeline
produces. -/
theorem c1_second_ingestion_idempotent (tbl : String) (keys : List String)
    (db₀ records : List Record)
    (hinj : ∀ v ∈ filterVals keys (stagedRecords tbl records keys),
      ∀ w ∈ filterVals keys (stagedRecords tbl records keys),
        keyStr v = keyStr w → v = w) :
    insert_data_with_duplicate_check tbl
        (insert_data_with_duplicate_check tbl db₀ records keys).db records keys
      = ⟨(insert_data_with_duplicate_check tbl db₀ records keys).db, 0,
         (stagedRecords tbl records keys).length,
         stagedInfo tbl records keys
           ++ (stagedRecords tbl records keys).map (mkDbDupEntry tbl), []⟩ := by
  have hrun1 := insert_data_eq_loop tbl db₀ records keys
  have hcov : ∀ c ∈ stagedRecords tbl records keys,
      CoveredP (insert_data_with_duplicate_check tbl db₀ records keys).db keys c := by
    rw [hrun1]
    exact insertLoop_covers tbl keys (stagedRecords tbl records keys) hinj
      (stagedRecords tbl records keys)
      ⟨db₀, 0, 0, stagedInfo tbl records keys, []⟩
      (fun c hc => hc)
      (fun kt hkt => absurd hkt (List.not_mem_nil kt))
  rw [insert_data_eq_loop tbl
    (insert_data_with_duplicate_check tbl db₀ records keys).db records keys]
  rw [insertLoop_all_covered tbl keys (stagedRecords tbl records keys)
    (insert_data_with_duplicate_check tbl db₀ records keys).db 0 0
    (stagedInfo tbl records keys) hcov]
  rw [Nat.zero_add]

/-- The C1 witness unique keys. -/
def c1Keys : List String := ["report_date", "name"]

/-- The C1 witness record (one pool row). -/
def c1Rec : Record :=
  [("report_date", .VStr "2024-01-01"), ("name", .VStr "p1"),
   ("usable_capacity_gib", .VNum 5)]

/-- C1 witness: ingesting the single-record batch twice into an empty
`storage_pools` table adds nothing on the second run and records the
candidate as `already_exists_in_db`. -/
theorem c1_second_ingestion_idempotent_witness :
    (∀ v ∈ filterVals c1Keys (stagedRecords "storage_pools" [c1Rec] c1Keys),
      ∀ w ∈ filterVals c1Keys (stagedRecords "storage_pools" [c1Rec] c1Keys),
        keyStr v = keyStr w → v = w)
    ∧ insert_data_with_duplicate_check "storage_pools"
        (insert_data_with_duplicate_check "storage_pools" [] [c1Rec] c1Keys).db
        [c1Rec] c1Keys
      = ⟨(insert_data_with_duplicate_check "storage_pools" [] [c1Rec] c1Keys).db, 0,
         (stagedRecords "storage_pools" [c1Rec] c1Keys).length,
         stagedInfo "storage_pools" [c1Rec] c1Keys
           ++ (stagedRecords "storage_pools" [c1Rec] c1Keys).map
               (mkDbDupEntry "storage_pools"), []⟩ :=
  ⟨by decide, c1_second_ingestion_idempotent "storage_pools" c1Keys [] [c1Rec] (by decide)⟩

end SanDashboard
